import Mathlib

/-!
Shallow embedding of the penguin-json engine (src/lib.rs): the Value model,
the Scanner, the recursive-descent Parser and the deserialize entry point,
together with proofs checking the specification's claims against them.

Modelling conventions:
* The Rust scanner works on `buffer.as_bytes()` and casts each byte with
  `as char`; the embedding uses `List Char`, one entry per byte (the cast
  `u8 as char` is a bijection onto code points below 256, and every input
  mentioned by the claims is ASCII, where byte and character coincide).
* Machine loops become fuel recursion so that every definition is a
  computable structural `def` the kernel can evaluate.  Fuel exhaustion is a
  distinguished outcome (`Panic.outOfFuel` in the parser) and is proved
  unreachable for the fuel the entry point supplies.
* Rust panics that are reachable from safe inputs are modelled explicitly:
  `Vec` indexing out of bounds becomes `Panic.indexOob`, and
  `str::parse::<f64>().unwrap()` becomes `Panic.floatUnwrap`, guarded by a
  Boolean acceptance test of the grammar documented for Rust's
  `f64::from_str` (sign, then `inf`/`infinity`/`nan` case-insensitively, or
  digits with optional fraction and exponent).
* `Value::Num(f64)` stores an IEEE-754 double in Rust.  The embedding keeps
  the numeric token's source text instead of the floating value: all claims
  settled here depend only on whether the conversion succeeds (modelled by
  the `f64::from_str` grammar test), never on the identity of the double.
* `Value::Obj(HashMap<String, Box<Value>>)` becomes an insertion-ordered
  association list; the parser checks `contains_key` before every insert, so
  the map content is determined by the insertion sequence.
-/

namespace PenguinJson

/-- Lexical token kinds, mirroring `enum TokenKind` in src/lib.rs. -/
inductive TokenKind where
  | leftSquaredBrace
  | rightSquaredBrace
  | leftCurlyBrace
  | rightCurlyBrace
  | comma
  | colon
  | str (value : String)
  | num (value : String)
  | true
  | false
  | null
  | eof
deriving DecidableEq, Repr

/-- A token with its 1-based source line, mirroring `struct Token`. -/
structure Token where
  kind : TokenKind
  line : Nat
deriving DecidableEq, Repr

/-- The JSON value tree, mirroring `enum Value`.  `num` keeps the numeric
literal's source text in place of the Rust `f64` (see the header comment);
`obj` models the `HashMap` as an insertion-ordered association list. -/
inductive Value where
  | null
  | bool (b : Bool)
  | num (raw : String)
  | str (s : String)
  | arr (elems : List Value)
  | obj (entries : List (String × Value))

/-- Keys of an association list are pairwise distinct. -/
def KeysUnique (entries : List (String × Value)) : Prop :=
  entries.Pairwise fun a b => a.1 ≠ b.1

/-- Every `obj` node of the value tree has pairwise distinct keys. -/
inductive ObjOk : Value → Prop where
  | null : ObjOk .null
  | bool (b : Bool) : ObjOk (.bool b)
  | num (raw : String) : ObjOk (.num raw)
  | str (s : String) : ObjOk (.str s)
  | arr (elems : List Value) (h : ∀ v ∈ elems, ObjOk v) : ObjOk (.arr elems)
  | obj (entries : List (String × Value)) (hk : KeysUnique entries)
      (hv : ∀ kv ∈ entries, ObjOk kv.2) : ObjOk (.obj entries)

/-- Error strings are formatted as in `report_error` /
`report_error_with_token`: `format!("[Line {line}] Error: {message}")`. -/
def msgWithLine (line : Nat) (message : String) : String :=
  "[Line " ++ toString line ++ "] Error: " ++ message

/-- An error string that carries a line tag, i.e. starts with "[Line ". -/
def lineTagged (e : String) : Bool :=
  match e.data with
  | '[' :: 'L' :: 'i' :: 'n' :: 'e' :: ' ' :: _ => Bool.true
  | _ => Bool.false

/-! ## Scanner (`struct Scanner` and its impl) -/

/-- Scanner state, mirroring `struct Scanner`: the byte buffer, the tokens
produced so far, the start of the lexeme in progress, the cursor, the
current 1-based line, and the accumulated lexical errors. -/
structure Scanner where
  buffer : List Char
  tokens : List Token
  start : Nat
  current : Nat
  line : Nat
  errors : List String
deriving Repr

/-- `Scanner::new`. -/
def Scanner.new (buffer : List Char) : Scanner :=
  { buffer := buffer, tokens := [], start := 0, current := 0, line := 1,
    errors := [] }

/-- `Scanner::is_at_end`. -/
def Scanner.isAtEnd (s : Scanner) : Bool :=
  s.buffer.length ≤ s.current

/-- `Scanner::peek`: the byte at the cursor, or NUL at end of input. -/
def Scanner.peek (s : Scanner) : Char :=
  s.buffer.getD s.current (Char.ofNat 0)

/-- `Scanner::advance`: return the byte at the cursor and move past it. -/
def Scanner.advance (s : Scanner) : Char × Scanner :=
  (s.peek, { s with current := s.current + 1 })

/-- `Scanner::add_token`. -/
def Scanner.addToken (s : Scanner) (kind : TokenKind) : Scanner :=
  { s with tokens := s.tokens ++ [{ kind := kind, line := s.line }] }

/-- `Scanner::report_error`: lexical errors carry the scanner's line. -/
def Scanner.reportError (s : Scanner) (message : String) : Scanner :=
  { s with errors := s.errors ++ [msgWithLine s.line message] }

/-- `Scanner::try_match`. -/
def Scanner.tryMatch (s : Scanner) (expected : Char) : Bool × Scanner :=
  if s.isAtEnd then (Bool.false, s)
  else if s.peek = expected then (Bool.true, (s.advance).2)
  else (Bool.false, s)

/-- `Scanner::try_match_str`, with the short-circuit of `Iterator::all`. -/
def Scanner.tryMatchList (s : Scanner) : List Char → Bool × Scanner
  | [] => (Bool.true, s)
  | c :: cs =>
    match s.tryMatch c with
    | (Bool.true, s1) => s1.tryMatchList cs
    | (Bool.false, s1) => (Bool.false, s1)

/-- The `while` loop of `add_string_token`: advance to the closing quote,
counting newlines, stopping at end of input. -/
def Scanner.stringLoop : Nat → Scanner → Scanner
  | 0, s => s
  | fuel + 1, s =>
    if s.isAtEnd then s
    else if s.peek = '"' then s
    else
      let s1 := if s.peek = '\n' then { s with line := s.line + 1 } else s
      Scanner.stringLoop fuel (s1.advance).2

/-- The slice `buffer[a..b]` of Rust. -/
def listSlice (l : List Char) (a b : Nat) : List Char :=
  (l.drop a).take (b - a)

/-- `Scanner::add_string_token`. -/
def Scanner.addStringToken (s : Scanner) : Scanner :=
  let s1 := Scanner.stringLoop (s.buffer.length + 1 - s.current) s
  if s1.isAtEnd then s1.reportError "Unterminated string!"
  else
    let s2 := (s1.advance).2
    s2.addToken (.str (String.mk (listSlice s2.buffer (s2.start + 1) (s2.current - 1))))

/-- The integer-digits `while` loop of `add_number_token`, threading
`num_integer_digits` and `is_first_integer_digit_0`. -/
def Scanner.numIntLoop : Nat → Scanner → Nat → Bool → Scanner
  | 0, s, _, _ => s
  | fuel + 1, s, num, first0 =>
    if (s.peek).isDigit then
      let c := s.peek
      let s1 := (s.advance).2
      let num1 := num + 1
      if c = '0' then
        if num1 = 1 then Scanner.numIntLoop fuel s1 num1 Bool.true
        else if num1 = 2 ∧ first0 then
          Scanner.numIntLoop fuel (s1.reportError "Invalid number literal!") num1 first0
        else Scanner.numIntLoop fuel s1 num1 first0
      else Scanner.numIntLoop fuel s1 num1 first0
    else s

/-- A digits `while` loop of `add_number_token` (fraction and exponent),
returning whether at least one digit was consumed. -/
def Scanner.digitsLoop : Nat → Scanner → Bool → Bool × Scanner
  | 0, s, has => (has, s)
  | fuel + 1, s, has =>
    if (s.peek).isDigit then Scanner.digitsLoop fuel (s.advance).2 Bool.true
    else (has, s)

/-- The "Parse the fraction part" section of `add_number_token`. -/
def Scanner.numFracStage (s1 : Scanner) : Scanner :=
  if s1.peek = '.' then
    let s1a := (s1.advance).2
    match Scanner.digitsLoop (s1a.buffer.length + 1 - s1a.current) s1a Bool.false with
    | (Bool.true, s1b) => s1b
    | (Bool.false, s1b) => s1b.reportError "Invalid number literal!"
  else s1

/-- The "Parse the exponent part" section of `add_number_token`. -/
def Scanner.numExpStage (s2 : Scanner) : Scanner :=
  if s2.peek = 'e' ∨ s2.peek = 'E' then
    let s2a := (s2.advance).2
    let s2b := if s2a.peek = '+' ∨ s2a.peek = '-' then (s2a.advance).2 else s2a
    match Scanner.digitsLoop (s2b.buffer.length + 1 - s2b.current) s2b Bool.false with
    | (Bool.true, s2c) => s2c
    | (Bool.false, s2c) => s2c.reportError "Invalid number literal!"
  else s2

/-- `Scanner::add_number_token` (the first character is already consumed). -/
def Scanner.addNumberToken (s : Scanner) (firstC : Char) : Scanner :=
  let num0 : Nat := if firstC = '-' then 0 else 1
  let first0 : Bool := firstC = '0'
  let s1 := Scanner.numIntLoop (s.buffer.length + 1 - s.current) s num0 first0
  let s3 := s1.numFracStage.numExpStage
  s3.addToken (.num (String.mk (listSlice s3.buffer s3.start s3.current)))

/-- `Scanner::scan_token`: dispatch on the consumed character. -/
def Scanner.scanToken (s : Scanner) : Scanner :=
  let c := s.peek
  let s1 := (s.advance).2
  if c = ' ' ∨ c = '\r' ∨ c = '\t' then s1
  else if c = '\n' then { s1 with line := s1.line + 1 }
  else if c = '[' then s1.addToken .leftSquaredBrace
  else if c = ']' then s1.addToken .rightSquaredBrace
  else if c = '\x7b' then s1.addToken .leftCurlyBrace
  else if c = '\x7d' then s1.addToken .rightCurlyBrace
  else if c = ',' then s1.addToken .comma
  else if c = ':' then s1.addToken .colon
  else if c = '"' then s1.addStringToken
  else if c = '-' ∨ c.isDigit then s1.addNumberToken c
  else if c = 't' then
    match s1.tryMatchList ['r', 'u', 'e'] with
    | (Bool.true, s2) => s2.addToken .true
    | (Bool.false, s2) => (s2.reportError "Unexpected token!").addToken .true
  else if c = 'f' then
    match s1.tryMatchList ['a', 'l', 's', 'e'] with
    | (Bool.true, s2) => s2.addToken .false
    | (Bool.false, s2) => (s2.reportError "Unexpected token!").addToken .false
  else if c = 'n' then
    match s1.tryMatchList ['u', 'l', 'l'] with
    | (Bool.true, s2) => s2.addToken .null
    | (Bool.false, s2) => (s2.reportError "Unexpected token!").addToken .null
  else s1.reportError "Unexpected character!"

/-- The `while` loop of `scan_tokens`: scan lexemes until end of input. -/
def Scanner.scanLoop : Nat → Scanner → Scanner
  | 0, s => s
  | fuel + 1, s =>
    if s.isAtEnd then s
    else Scanner.scanLoop fuel (({ s with start := s.current }).scanToken)

/-- `Scanner::scan_tokens`: the full pass, then the EOF token. -/
def Scanner.scanTokens (s : Scanner) : Scanner :=
  let s1 := Scanner.scanLoop (s.buffer.length + 1 - s.current) s
  s1.addToken .eof

/-- The scanner run of `deserialize_value` on a buffer. -/
def scanOf (buffer : List Char) : Scanner :=
  (Scanner.new buffer).scanTokens

/-! ## Rust `f64::from_str` acceptance

`parse_value` runs `str_value.parse::<f64>().unwrap()` on every numeric
token.  The claims depend only on whether that conversion succeeds, so the
embedding keeps the acceptance test of the grammar documented for Rust's
`impl FromStr for f64`: an optional sign, then either `inf` / `infinity` /
`nan` (case-insensitive) or digits with an optional fraction introduced by
a point and an optional exponent with its own optional sign and mandatory
digits. -/

/-- Strip one leading sign character, as Rust's float grammar allows. -/
def dropSign : List Char → List Char
  | [] => []
  | c :: rest => if c = '+' ∨ c = '-' then rest else c :: rest

/-- The optional-exponent tail of the Rust float grammar; the whole rest of
the input must be consumed. -/
def floatExpTail : List Char → Bool
  | [] => Bool.true
  | c :: rest =>
    if c = 'e' ∨ c = 'E' then
      let r := dropSign rest
      let ds := r.takeWhile Char.isDigit
      let tail := r.dropWhile Char.isDigit
      decide (ds ≠ [] ∧ tail = [])
    else Bool.false

/-- The number part of the Rust float grammar (after the sign). -/
def floatNumberOk (s : List Char) : Bool :=
  let ds := s.takeWhile Char.isDigit
  let r1 := s.dropWhile Char.isDigit
  match r1 with
  | '.' :: r2 =>
    let fs := r2.takeWhile Char.isDigit
    let r3 := r2.dropWhile Char.isDigit
    decide (ds ≠ [] ∨ fs ≠ []) && floatExpTail r3
  | _ => decide (ds ≠ []) && floatExpTail r1

/-- Whether `str::parse::<f64>` succeeds on this string. -/
def rustParseF64Ok (str : String) : Bool :=
  let s := dropSign str.data
  let low := s.map Char.toLower
  low = "inf".data ∨ low = "infinity".data ∨ low = "nan".data ∨ floatNumberOk s

/-! ## Parser (`struct Parser` and its impl)

The Rust parser can abort the process: `tokens[current]` out of bounds and
the `f64` unwrap both panic.  The embedding surfaces them as `Panic`
outcomes; `outOfFuel` is the embedding artifact for the fuel recursion and
is proved unreachable for the fuel `deserializeValue` supplies. -/

/-- Abnormal terminations of the parser run. -/
inductive Panic where
  | floatUnwrap
  | indexOob
  | outOfFuel
deriving DecidableEq, Repr

/-- Parser state, mirroring `struct Parser`: the token vector, the cursor
and the accumulated errors. -/
structure PState where
  tokens : List Token
  current : Nat
  errors : List String

/-- `Parser::is_at_end`. -/
def PState.isAtEnd (st : PState) : Bool :=
  st.tokens.length ≤ st.current

/-- The state change of `Parser::advance` (the returned token is read with
`peek` at each use site). -/
def PState.bump (st : PState) : PState :=
  { st with current := st.current + 1 }

/-- `Parser::report_error`: no line number is attached. -/
def PState.reportError (st : PState) (message : String) : PState :=
  { st with errors := st.errors ++ ["Error: " ++ message] }

/-- `Parser::report_error_with_token`: the token's line is attached. -/
def PState.reportErrorWithToken (st : PState) (t : Token) (message : String) : PState :=
  { st with errors := st.errors ++ [msgWithLine t.line message] }

/-- `Parser::try_match`.  The Rust code short-circuits on `is_at_end`, so
the lookup cannot go out of bounds; the unreachable `none` case returns
`false` like the at-end case. -/
def PState.tryMatch (st : PState) (expected : TokenKind) : Bool × PState :=
  if st.isAtEnd then (Bool.false, st)
  else
    match st.tokens[st.current]? with
    | none => (Bool.false, st)
    | some t => if t.kind = expected then (Bool.true, st.bump) else (Bool.false, st)

mutual

/-- `Parser::parse_value`. -/
def parseValue : Nat → PState → Except Panic (Option Value × PState)
  | 0, _ => .error .outOfFuel
  | fuel + 1, st =>
    if st.isAtEnd then .ok (none, st.reportError "Unexpected EOF!")
    else
      match st.tokens[st.current]? with
      | none => .error .indexOob
      | some firstToken =>
        match firstToken.kind with
        | .str strValue => .ok (some (.str strValue), st.bump)
        | .num strValue =>
          if rustParseF64Ok strValue then .ok (some (.num strValue), st.bump)
          else .error .floatUnwrap
        | .true => .ok (some (.bool Bool.true), st.bump)
        | .false => .ok (some (.bool Bool.false), st.bump)
        | .null => .ok (some .null, st.bump)
        | .leftCurlyBrace => parseObject fuel st
        | .leftSquaredBrace => parseArray fuel st
        | _ => .ok (none, st.reportErrorWithToken firstToken "Unexpected token!")

/-- `Parser::parse_object` up to entering its member loop. -/
def parseObject : Nat → PState → Except Panic (Option Value × PState)
  | 0, _ => .error .outOfFuel
  | fuel + 1, st =>
    if st.isAtEnd then .ok (none, st.reportError "Unexpected EOF!")
    else
      match st.tryMatch .leftCurlyBrace with
      | (Bool.false, st1) =>
        match st1.tokens[st1.current]? with
        | none => .error .indexOob
        | some t => .ok (none, st1.reportErrorWithToken t "Expected left curly brace!")
      | (Bool.true, st1) => objLoop fuel [] Bool.false st1

/-- The member `loop` of `parse_object`, threading the accumulated map and
the `previous_match_is_member` flag. -/
def objLoop : Nat → List (String × Value) → Bool → PState →
    Except Panic (Option Value × PState)
  | 0, _, _, _ => .error .outOfFuel
  | fuel + 1, resultObj, prevIsMember, st =>
    if st.isAtEnd then .ok (none, st.reportError "Unexpected EOF!")
    else
      match st.tryMatch .rightCurlyBrace with
      | (Bool.true, st1) => .ok (some (.obj resultObj), st1)
      | (Bool.false, st1) =>
        match st1.tokens[st1.current]? with
        | none => .error .indexOob
        | some nextToken =>
          match
            if prevIsMember then st1.tryMatch .comma
            else (Bool.true, st1) with
          | (Bool.false, st2) =>
            .ok (none, st2.reportErrorWithToken nextToken
              "JSON object members must be separated by a comma!")
          | (Bool.true, st2) =>
            match parseObjectMember fuel st2 with
            | .error p => .error p
            | .ok (none, st3) =>
              .ok (none, st3.reportErrorWithToken nextToken
                "Failed to parse JSON object member!")
            | .ok (some member, st3) =>
              if resultObj.any fun p => p.1 = member.1 then
                .ok (none, st3.reportErrorWithToken nextToken
                  ("Duplicate JSON object key! Key " ++ member.1))
              else objLoop fuel (resultObj ++ [member]) Bool.true st3

/-- `Parser::parse_object_member`. -/
def parseObjectMember : Nat → PState → Except Panic (Option (String × Value) × PState)
  | 0, _ => .error .outOfFuel
  | fuel + 1, st =>
    if st.isAtEnd then .ok (none, st.reportError "Unexpected EOF!")
    else
      match st.tokens[st.current]? with
      | none => .error .indexOob
      | some nextToken =>
        match nextToken.kind with
        | .str strValue =>
          let st1 := st.bump
          if st1.isAtEnd then .ok (none, st1.reportError "Unexpected EOF!")
          else
            match st1.tryMatch .colon with
            | (Bool.true, st2) =>
              match parseValue fuel st2 with
              | .error p => .error p
              | .ok (none, st4) =>
                .ok (none, st4.reportError "Failed to parse JSON object element value!")
              | .ok (some v, st4) => .ok (some (strValue, v), st4)
            | (Bool.false, st2) =>
              match st2.tokens[st2.current]? with
              | none => .error .indexOob
              | some t =>
                match parseValue fuel
                    (st2.reportErrorWithToken t
                      "Expected JSON object element key-value colon separator!") with
                | .error p => .error p
                | .ok (none, st4) =>
                  .ok (none, st4.reportError "Failed to parse JSON object element value!")
                | .ok (some v, st4) => .ok (some (strValue, v), st4)
        | _ =>
          .ok (none, st.reportErrorWithToken nextToken "Expected JSON object element key!")

/-- `Parser::parse_array` up to entering its element loop. -/
def parseArray : Nat → PState → Except Panic (Option Value × PState)
  | 0, _ => .error .outOfFuel
  | fuel + 1, st =>
    if st.isAtEnd then .ok (none, st.reportError "Unexpected EOF!")
    else
      match st.tryMatch .leftSquaredBrace with
      | (Bool.false, st1) =>
        match st1.tokens[st1.current]? with
        | none => .error .indexOob
        | some t => .ok (none, st1.reportErrorWithToken t "Expected left squared brace!")
      | (Bool.true, st1) => arrLoop fuel [] Bool.false st1

/-- The element `loop` of `parse_array`, threading the accumulated vector
and the `previous_match_is_element` flag. -/
def arrLoop : Nat → List Value → Bool → PState → Except Panic (Option Value × PState)
  | 0, _, _, _ => .error .outOfFuel
  | fuel + 1, resultArr, prevIsElement, st =>
    if st.isAtEnd then .ok (none, st.reportError "Unexpected EOF!")
    else
      match st.tryMatch .rightSquaredBrace with
      | (Bool.true, st1) => .ok (some (.arr resultArr), st1)
      | (Bool.false, st1) =>
        match st1.tokens[st1.current]? with
        | none => .error .indexOob
        | some nextToken =>
          match
            if prevIsElement then st1.tryMatch .comma
            else (Bool.true, st1) with
          | (Bool.false, st2) =>
            .ok (none, st2.reportErrorWithToken nextToken
              "JSON array elements must be separated by a comma!")
          | (Bool.true, st2) =>
            match parseValue fuel st2 with
            | .error p => .error p
            | .ok (none, st3) =>
              .ok (none, st3.reportErrorWithToken nextToken
                "Failed to parse JSON object element!")
            | .ok (some element, st3) =>
              arrLoop fuel (resultArr ++ [element]) Bool.true st3

end

/-- `Parser::parse_tokens`: the top-level value must be followed by EOF. -/
def parseTokens (fuel : Nat) (st : PState) : Except Panic (Option Value × PState) :=
  match parseValue fuel st with
  | .error p => .error p
  | .ok (maybeValue, st1) =>
    if st1.isAtEnd then .ok (none, st1.reportError "Expected EOF!")
    else
      match st1.tokens[st1.current]? with
      | none => .error .indexOob
      | some t =>
        if t.kind = .eof then .ok (maybeValue, st1)
        else .ok (none, st1.reportError "Expected EOF!")

/-- Fuel supplied to the parser by the entry point; proved sufficient. -/
def parserFuel (tokens : List Token) : Nat :=
  4 * tokens.length + 8

/-- The parser run of `deserialize_value` on a token vector. -/
def runParser (tokens : List Token) : Except Panic (Option Value × PState) :=
  parseTokens (parserFuel tokens) { tokens := tokens, current := 0, errors := [] }

/-- `deserialize_value`: scan, stop on lexical errors, parse, stop on parse
errors.  `Except.ok none` is Rust's `None`; `Except.error` is a panic. -/
def deserializeValue (buffer : List Char) : Except Panic (Option Value) :=
  let sc := scanOf buffer
  if sc.errors.isEmpty then
    match runParser sc.tokens with
    | .error p => .error p
    | .ok (maybeValue, st) => if st.errors.isEmpty then .ok maybeValue else .ok none
  else .ok none

/-! ## Scanner invariants -/

/-- What any piece of scanner code preserves: the buffer is untouched, the
cursor only moves forward, tokens are appended (never the EOF kind, which
only `scan_tokens` emits), and errors are appended carrying a line tag. -/
structure ScanStep (s s' : Scanner) : Prop where
  buffer_eq : s'.buffer = s.buffer
  current_le : s.current ≤ s'.current
  tokens_ext : ∃ Δ, s'.tokens = s.tokens ++ Δ ∧ ∀ t ∈ Δ, t.kind ≠ TokenKind.eof
  errors_ext : ∃ E, s'.errors = s.errors ++ E ∧ ∀ e ∈ E, lineTagged e = Bool.true

theorem ScanStep.refl (s : Scanner) : ScanStep s s :=
  ⟨rfl, Nat.le_refl _, ⟨[], by simp, by simp⟩, ⟨[], by simp, by simp⟩⟩

theorem ScanStep.trans {a b c : Scanner} (h1 : ScanStep a b) (h2 : ScanStep b c) :
    ScanStep a c := by
  obtain ⟨D1, hD1, hk1⟩ := h1.tokens_ext
  obtain ⟨D2, hD2, hk2⟩ := h2.tokens_ext
  obtain ⟨E1, hE1, he1⟩ := h1.errors_ext
  obtain ⟨E2, hE2, he2⟩ := h2.errors_ext
  refine ⟨h2.buffer_eq.trans h1.buffer_eq, Nat.le_trans h1.current_le h2.current_le,
    ⟨D1 ++ D2, ?_, ?_⟩, ⟨E1 ++ E2, ?_, ?_⟩⟩
  · rw [hD2, hD1, List.append_assoc]
  · intro t ht
    rcases List.mem_append.1 ht with h | h
    · exact hk1 t h
    · exact hk2 t h
  · rw [hE2, hE1, List.append_assoc]
  · intro e he
    rcases List.mem_append.1 he with h | h
    · exact he1 e h
    · exact he2 e h

theorem ScanStep.of_eq {a b : Scanner} (hb : b.buffer = a.buffer)
    (hc : a.current ≤ b.current) (ht : b.tokens = a.tokens) (he : b.errors = a.errors) :
    ScanStep a b :=
  ⟨hb, hc, ⟨[], by simp [ht], by simp⟩, ⟨[], by simp [he], by simp⟩⟩

theorem lineTagged_msgWithLine (n : Nat) (m : String) :
    lineTagged (msgWithLine n m) = Bool.true := by
  have h : (msgWithLine n m).data
      = '[' :: 'L' :: 'i' :: 'n' :: 'e' :: ' ' ::
        ((toString n).data ++ ("] Error: ".data ++ m.data)) := by
    simp [msgWithLine, String.data_append]
  simp [lineTagged, h]

theorem addToken_step (s : Scanner) (k : TokenKind) (hk : k ≠ .eof) :
    ScanStep s (s.addToken k) := by
  refine ⟨rfl, Nat.le_refl _, ⟨[{ kind := k, line := s.line }], rfl, ?_⟩,
    ⟨[], by simp [Scanner.addToken], by simp⟩⟩
  intro t ht
  rw [List.mem_singleton] at ht
  subst ht
  exact hk

theorem reportError_step (s : Scanner) (m : String) : ScanStep s (s.reportError m) := by
  refine ⟨rfl, Nat.le_refl _, ⟨[], by simp [Scanner.reportError], by simp⟩,
    ⟨[msgWithLine s.line m], rfl, ?_⟩⟩
  intro e he
  rw [List.mem_singleton] at he
  subst he
  exact lineTagged_msgWithLine s.line m

theorem advance_step (s : Scanner) : ScanStep s (s.advance).2 :=
  ScanStep.of_eq rfl (Nat.le_succ _) rfl rfl

theorem tryMatch_step (s : Scanner) (c : Char) : ScanStep s (s.tryMatch c).2 := by
  unfold Scanner.tryMatch
  split
  · exact ScanStep.refl s
  · split
    · exact advance_step s
    · exact ScanStep.refl s

theorem tryMatchList_step (s : Scanner) (cs : List Char) :
    ScanStep s (s.tryMatchList cs).2 := by
  induction cs generalizing s with
  | nil => exact ScanStep.refl s
  | cons c cs ih =>
    unfold Scanner.tryMatchList
    rcases h : s.tryMatch c with ⟨b, s1⟩
    have h1 : ScanStep s s1 := by
      have := tryMatch_step s c
      rwa [h] at this
    cases b
    · exact h1
    · exact h1.trans (ih s1)

theorem stringLoop_step (fuel : Nat) (s : Scanner) :
    ScanStep s (Scanner.stringLoop fuel s) := by
  induction fuel generalizing s with
  | zero => exact ScanStep.refl s
  | succ fuel ih =>
    unfold Scanner.stringLoop
    split
    · exact ScanStep.refl s
    · split
      · exact ScanStep.refl s
      · refine ScanStep.trans ?_ (ih _)
        split
        · exact ScanStep.of_eq rfl (Nat.le_succ _) rfl rfl
        · exact advance_step s

theorem numIntLoop_step (fuel : Nat) (s : Scanner) (num : Nat) (first0 : Bool) :
    ScanStep s (Scanner.numIntLoop fuel s num first0) := by
  induction fuel generalizing s num first0 with
  | zero => exact ScanStep.refl s
  | succ fuel ih =>
    unfold Scanner.numIntLoop
    dsimp only
    split
    · have hadv : ScanStep s (s.advance).2 := advance_step s
      split
      · split
        · exact hadv.trans (ih _ _ _)
        · split
          · exact (hadv.trans (reportError_step _ _)).trans (ih _ _ _)
          · exact hadv.trans (ih _ _ _)
      · exact hadv.trans (ih _ _ _)
    · exact ScanStep.refl s

theorem digitsLoop_step (fuel : Nat) (s : Scanner) (has : Bool) :
    ScanStep s (Scanner.digitsLoop fuel s has).2 := by
  induction fuel generalizing s has with
  | zero => exact ScanStep.refl s
  | succ fuel ih =>
    unfold Scanner.digitsLoop
    split
    · exact (advance_step s).trans (ih _ _)
    · exact ScanStep.refl s

theorem addStringToken_step (s : Scanner) : ScanStep s s.addStringToken := by
  unfold Scanner.addStringToken
  dsimp only
  have h1 : ScanStep s (Scanner.stringLoop (s.buffer.length + 1 - s.current) s) :=
    stringLoop_step _ s
  split
  · exact h1.trans (reportError_step _ _)
  · exact (h1.trans (advance_step _)).trans (addToken_step _ _ (by simp))

theorem numFracStage_step (s : Scanner) : ScanStep s s.numFracStage := by
  unfold Scanner.numFracStage
  dsimp only
  split
  · split
    next s1b heq =>
      have h2 := digitsLoop_step ((s.advance).2.buffer.length + 1 - (s.advance).2.current)
        (s.advance).2 Bool.false
      rw [heq] at h2
      exact (advance_step s).trans h2
    next s1b heq =>
      have h2 := digitsLoop_step ((s.advance).2.buffer.length + 1 - (s.advance).2.current)
        (s.advance).2 Bool.false
      rw [heq] at h2
      exact ((advance_step s).trans h2).trans (reportError_step _ _)
  · exact ScanStep.refl s

theorem numExpStage_step (s : Scanner) : ScanStep s s.numExpStage := by
  unfold Scanner.numExpStage
  dsimp only
  split
  · have hpre : ScanStep s
        (if (s.advance).2.peek = '+' ∨ (s.advance).2.peek = '-'
          then ((s.advance).2.advance).2 else (s.advance).2) := by
      refine (advance_step s).trans ?_
      split
      · exact advance_step _
      · exact ScanStep.refl _
    generalize hB : (if (s.advance).2.peek = '+' ∨ (s.advance).2.peek = '-'
        then ((s.advance).2.advance).2 else (s.advance).2) = s2b at hpre ⊢
    split
    next s2c heq =>
      have h2 := digitsLoop_step (s2b.buffer.length + 1 - s2b.current) s2b Bool.false
      rw [heq] at h2
      exact hpre.trans h2
    next s2c heq =>
      have h2 := digitsLoop_step (s2b.buffer.length + 1 - s2b.current) s2b Bool.false
      rw [heq] at h2
      exact (hpre.trans h2).trans (reportError_step _ _)
  · exact ScanStep.refl s

theorem addNumberToken_step (s : Scanner) (firstC : Char) :
    ScanStep s (s.addNumberToken firstC) := by
  unfold Scanner.addNumberToken
  dsimp only
  refine ScanStep.trans ?_ (addToken_step _ _ (by simp))
  exact ((numIntLoop_step _ _ _ _).trans (numFracStage_step _)).trans (numExpStage_step _)

theorem keywordBranch_step (s1 : Scanner) (cs : List Char) (k : TokenKind)
    (hk : k ≠ TokenKind.eof) :
    ScanStep s1 (match s1.tryMatchList cs with
      | (Bool.true, s2) => s2.addToken k
      | (Bool.false, s2) => (s2.reportError "Unexpected token!").addToken k) := by
  have h := tryMatchList_step s1 cs
  rcases heq : s1.tryMatchList cs with ⟨b, s2⟩
  rw [heq] at h
  cases b
  · exact (h.trans (reportError_step _ _)).trans (addToken_step _ _ hk)
  · exact h.trans (addToken_step _ _ hk)

theorem scanToken_step (s : Scanner) :
    ScanStep s s.scanToken ∧ s.current < (s.scanToken).current := by
  have key : ScanStep (s.advance).2 s.scanToken := by
    unfold Scanner.scanToken
    dsimp only
    by_cases h1 : s.peek = ' ' ∨ s.peek = '\r' ∨ s.peek = '\t'
    · rw [if_pos h1]
      exact ScanStep.refl _
    rw [if_neg h1]
    by_cases h2 : s.peek = '\n'
    · rw [if_pos h2]
      exact ScanStep.of_eq rfl (Nat.le_refl _) rfl rfl
    rw [if_neg h2]
    by_cases h3 : s.peek = '['
    · rw [if_pos h3]
      exact addToken_step _ _ (by simp)
    rw [if_neg h3]
    by_cases h4 : s.peek = ']'
    · rw [if_pos h4]
      exact addToken_step _ _ (by simp)
    rw [if_neg h4]
    by_cases h5 : s.peek = '\x7b'
    · rw [if_pos h5]
      exact addToken_step _ _ (by simp)
    rw [if_neg h5]
    by_cases h6 : s.peek = '\x7d'
    · rw [if_pos h6]
      exact addToken_step _ _ (by simp)
    rw [if_neg h6]
    by_cases h7 : s.peek = ','
    · rw [if_pos h7]
      exact addToken_step _ _ (by simp)
    rw [if_neg h7]
    by_cases h8 : s.peek = ':'
    · rw [if_pos h8]
      exact addToken_step _ _ (by simp)
    rw [if_neg h8]
    by_cases h9 : s.peek = '"'
    · rw [if_pos h9]
      exact addStringToken_step _
    rw [if_neg h9]
    by_cases h10 : s.peek = '-' ∨ (s.peek).isDigit
    · rw [if_pos h10]
      exact addNumberToken_step _ _
    rw [if_neg h10]
    by_cases h11 : s.peek = 't'
    · rw [if_pos h11]
      exact keywordBranch_step _ _ _ (by simp)
    rw [if_neg h11]
    by_cases h12 : s.peek = 'f'
    · rw [if_pos h12]
      exact keywordBranch_step _ _ _ (by simp)
    rw [if_neg h12]
    by_cases h13 : s.peek = 'n'
    · rw [if_pos h13]
      exact keywordBranch_step _ _ _ (by simp)
    rw [if_neg h13]
    exact reportError_step _ _
  have hstep : ScanStep s s.scanToken := (advance_step s).trans key
  have hcur : (s.advance).2.current ≤ (s.scanToken).current := key.current_le
  have hadv : (s.advance).2.current = s.current + 1 := rfl
  exact ⟨hstep, by omega⟩

theorem scanLoop_step (fuel : Nat) (s : Scanner) : ScanStep s (Scanner.scanLoop fuel s) := by
  induction fuel generalizing s with
  | zero => exact ScanStep.refl s
  | succ fuel ih =>
    unfold Scanner.scanLoop
    split
    · exact ScanStep.refl s
    · have h1 : ScanStep s { s with start := s.current } :=
        ScanStep.of_eq rfl (Nat.le_refl _) rfl rfl
      have h2 := (scanToken_step { s with start := s.current }).1
      exact (h1.trans h2).trans (ih _)

theorem scanLoop_complete (fuel : Nat) (s : Scanner)
    (h : s.buffer.length - s.current ≤ fuel) :
    (Scanner.scanLoop fuel s).isAtEnd = Bool.true := by
  induction fuel generalizing s with
  | zero =>
    unfold Scanner.scanLoop
    simp only [Scanner.isAtEnd, decide_eq_true_eq]
    omega
  | succ fuel ih =>
    unfold Scanner.scanLoop
    split
    next hEnd => exact hEnd
    next hEnd =>
      apply ih
      have hs := scanToken_step { s with start := s.current }
      have hbuf : (({ s with start := s.current }).scanToken).buffer = s.buffer :=
        hs.1.buffer_eq
      have hcur : s.current < (({ s with start := s.current }).scanToken).current := hs.2
      simp only [Scanner.isAtEnd, Bool.not_eq_true, decide_eq_false_iff_not] at hEnd
      rw [hbuf]
      omega

theorem scanOf_spec (buffer : List Char) :
    (scanOf buffer).buffer = buffer ∧
    (scanOf buffer).buffer.length ≤ (scanOf buffer).current ∧
    (∃ Δ l, (scanOf buffer).tokens = Δ ++ [{ kind := .eof, line := l }] ∧
      ∀ t ∈ Δ, t.kind ≠ TokenKind.eof) ∧
    (∀ e ∈ (scanOf buffer).errors, lineTagged e = Bool.true) := by
  have hloop := scanLoop_step ((Scanner.new buffer).buffer.length + 1 -
    (Scanner.new buffer).current) (Scanner.new buffer)
  have hfull := scanLoop_complete ((Scanner.new buffer).buffer.length + 1 -
    (Scanner.new buffer).current) (Scanner.new buffer) (by dsimp [Scanner.new]; omega)
  obtain ⟨Δ, hΔ, hΔk⟩ := hloop.tokens_ext
  obtain ⟨E, hE, hEt⟩ := hloop.errors_ext
  have hnew_tokens : (Scanner.new buffer).tokens = [] := rfl
  have hnew_errors : (Scanner.new buffer).errors = [] := rfl
  rw [hnew_tokens, List.nil_append] at hΔ
  rw [hnew_errors, List.nil_append] at hE
  constructor
  · show ((Scanner.scanLoop _ _).addToken .eof).buffer = buffer
    simpa [Scanner.addToken] using hloop.buffer_eq
  constructor
  · show ((Scanner.scanLoop _ _).addToken .eof).buffer.length ≤
      ((Scanner.scanLoop _ _).addToken .eof).current
    simp only [Scanner.addToken]
    simpa [Scanner.isAtEnd] using hfull
  constructor
  · refine ⟨Δ, (Scanner.scanLoop ((Scanner.new buffer).buffer.length + 1 -
      (Scanner.new buffer).current) (Scanner.new buffer)).line, ?_, hΔk⟩
    show ((Scanner.scanLoop _ _).addToken .eof).tokens = _
    simp [Scanner.addToken, hΔ]
  · intro e he
    apply hEt
    rw [← hE]
    simpa [Scanner.addToken] using he

/-- The token vector the scanner hands to the parser: at least one token,
the last one is EOF, and EOF occurs nowhere earlier. -/
def Sentinel (tokens : List Token) : Prop :=
  1 ≤ tokens.length ∧
  (∀ t, tokens[tokens.length - 1]? = some t → t.kind = TokenKind.eof) ∧
  (∀ i t, i < tokens.length - 1 → tokens[i]? = some t → t.kind ≠ TokenKind.eof)

theorem sentinel_scanOf (buffer : List Char) : Sentinel (scanOf buffer).tokens := by
  obtain ⟨-, -, ⟨Δ, l, hT, hΔk⟩, -⟩ := scanOf_spec buffer
  rw [hT]
  refine ⟨by simp, ?_, ?_⟩
  · intro t ht
    have hlen : (Δ ++ [Token.mk TokenKind.eof l]).length = Δ.length + 1 := by
      simp
    rw [hlen] at ht
    simp only [Nat.add_sub_cancel] at ht
    rw [List.getElem?_concat_length] at ht
    cases ht
    rfl
  · intro i t hi ht
    have hlen : (Δ ++ [Token.mk TokenKind.eof l]).length = Δ.length + 1 := by
      simp
    rw [hlen] at hi
    simp only [Nat.add_sub_cancel] at hi
    rw [List.getElem?_append_left hi] at ht
    exact hΔk t (List.getElem?_mem ht)

/-! ## Parser invariants

The parser is analysed relative to the sentinel shape of the scanner's
token vector.  `lastIdx` always denotes `tokens.length - 1`, the index of
the EOF token. -/

/-- The parser error messages recorded by `report_error`, i.e. without a
line number. -/
def linelessMsgs : List String :=
  ["Error: Unexpected EOF!", "Error: Expected EOF!",
   "Error: Failed to parse JSON object element value!"]

/-- Shape of every parser-recorded error: line-tagged (via
`report_error_with_token`) or one of the lineless `report_error` texts. -/
def PerrOk (e : String) : Prop :=
  lineTagged e = Bool.true ∨ e ∈ linelessMsgs

/-- What a parser fragment does to the state: the token vector is
untouched, the cursor moves forward but never past the EOF index, and
errors are appended with the shape `PerrOk`. -/
structure PStep (lastIdx : Nat) (st st1 : PState) : Prop where
  tokens_eq : st1.tokens = st.tokens
  current_le : st.current ≤ st1.current
  current_bound : st1.current ≤ lastIdx
  errors_ext : ∃ E, st1.errors = st.errors ++ E ∧ ∀ e ∈ E, PerrOk e

theorem PStep.base {lastIdx : Nat} {st : PState} (h : st.current ≤ lastIdx) :
    PStep lastIdx st st :=
  ⟨rfl, Nat.le_refl _, h, ⟨[], by simp, by simp⟩⟩

theorem PStep.seq {lastIdx : Nat} {a b c : PState} (h1 : PStep lastIdx a b)
    (h2 : PStep lastIdx b c) : PStep lastIdx a c := by
  obtain ⟨E1, hE1, he1⟩ := h1.errors_ext
  obtain ⟨E2, hE2, he2⟩ := h2.errors_ext
  refine ⟨h2.tokens_eq.trans h1.tokens_eq, Nat.le_trans h1.current_le h2.current_le,
    h2.current_bound, ⟨E1 ++ E2, ?_, ?_⟩⟩
  · rw [hE2, hE1, List.append_assoc]
  · intro e he
    rcases List.mem_append.1 he with h | h
    · exact he1 e h
    · exact he2 e h

theorem PStep.reportError {lastIdx : Nat} {st st1 : PState} (h : PStep lastIdx st st1)
    (m : String) (hm : ("Error: " ++ m) ∈ linelessMsgs) :
    PStep lastIdx st (st1.reportError m) := by
  refine h.seq ⟨rfl, Nat.le_refl _, h.current_bound, ⟨["Error: " ++ m], rfl, ?_⟩⟩
  intro e he
  rw [List.mem_singleton] at he
  subst he
  exact Or.inr hm

theorem PStep.reportTok {lastIdx : Nat} {st st1 : PState} (h : PStep lastIdx st st1)
    (t : Token) (m : String) : PStep lastIdx st (st1.reportErrorWithToken t m) := by
  refine h.seq ⟨rfl, Nat.le_refl _, h.current_bound, ⟨[msgWithLine t.line m], rfl, ?_⟩⟩
  intro e he
  rw [List.mem_singleton] at he
  subst he
  exact Or.inl (lineTagged_msgWithLine t.line m)

theorem PStep.bump {lastIdx : Nat} {st st1 : PState} (h : PStep lastIdx st st1)
    (hlt : st1.current < lastIdx) : PStep lastIdx st st1.bump :=
  h.seq ⟨rfl, Nat.le_succ _, hlt, ⟨[], by simp [PState.bump], by simp⟩⟩

/-- Outcome contract of every parser fragment: a float-unwrap panic, or a
normal return related to the entry state by `PStep`, where a produced value
satisfies `valOk` and consumed at least one token. -/
def PGood {α : Type} (valOk : α → Prop) (st : PState) (lastIdx : Nat)
    (r : Except Panic (Option α × PState)) : Prop :=
  r = .error .floatUnwrap ∨
  ∃ res st1, r = .ok (res, st1) ∧ PStep lastIdx st st1 ∧
    ∀ a, res = some a → valOk a ∧ st.current + 1 ≤ st1.current

theorem PGood.pre {α : Type} {valOk : α → Prop} {lastIdx : Nat} {st st0 : PState}
    {r : Except Panic (Option α × PState)} (h0 : PStep lastIdx st st0)
    (h : PGood valOk st0 lastIdx r) : PGood valOk st lastIdx r := by
  rcases h with h | ⟨res, st1, hr, hs, hres⟩
  · exact Or.inl h
  · refine Or.inr ⟨res, st1, hr, h0.seq hs, ?_⟩
    intro a ha
    obtain ⟨hv, hcons⟩ := hres a ha
    have := h0.current_le
    exact ⟨hv, by omega⟩

theorem PGood.retNone {α : Type} {valOk : α → Prop} {lastIdx : Nat} {st st1 : PState}
    (h : PStep lastIdx st st1) : PGood valOk st lastIdx (.ok (none, st1)) :=
  Or.inr ⟨none, st1, rfl, h, fun a ha => nomatch ha⟩

theorem PGood.retSome {α : Type} {valOk : α → Prop} {lastIdx : Nat} {st st1 : PState}
    {a : α} (h : PStep lastIdx st st1) (hv : valOk a) (hc : st.current + 1 ≤ st1.current) :
    PGood valOk st lastIdx (.ok (some a, st1)) :=
  Or.inr ⟨some a, st1, rfl, h, fun b hb => by cases hb; exact ⟨hv, hc⟩⟩

theorem PState.not_atEnd {st : PState} (h1 : 1 ≤ st.tokens.length)
    (h2 : st.current ≤ st.tokens.length - 1) : st.isAtEnd = Bool.false := by
  simp only [PState.isAtEnd, decide_eq_false_iff_not, Nat.not_le]
  omega

theorem getElem?_of_lt {l : List Token} {i : Nat} (h : i < l.length) :
    ∃ t, l[i]? = some t :=
  ⟨l[i], List.getElem?_eq_getElem h⟩

/-- A token that is not EOF sits strictly before the EOF index. -/
theorem lt_lastIdx_of_ne_eof {tokens : List Token} (hs : Sentinel tokens) {i : Nat}
    {t : Token} (ht : tokens[i]? = some t) (hk : t.kind ≠ TokenKind.eof)
    (hle : i ≤ tokens.length - 1) : i < tokens.length - 1 := by
  rcases Nat.lt_or_ge i (tokens.length - 1) with h | h
  · exact h
  · exfalso
    have heq : i = tokens.length - 1 := Nat.le_antisymm hle h
    exact hk (hs.2.1 t (heq ▸ ht))

/-- Case analysis of `Parser::try_match`: either no match and the state is
unchanged, or the token at the cursor has the expected kind and the cursor
moves past it. -/
theorem tryMatch_cases (st : PState) (k : TokenKind) :
    st.tryMatch k = (Bool.false, st) ∨
    (∃ t, st.tokens[st.current]? = some t ∧ t.kind = k ∧
      st.tryMatch k = (Bool.true, st.bump)) := by
  by_cases hEnd : st.isAtEnd
  · left
    simp [PState.tryMatch, hEnd]
  · rcases hget : st.tokens[st.current]? with - | t
    · left
      simp [PState.tryMatch, hEnd, hget]
    · by_cases hk : t.kind = k
      · right
        exact ⟨t, rfl, hk, by simp [PState.tryMatch, hEnd, hget, hk]⟩
      · left
        simp [PState.tryMatch, hEnd, hget, hk]

/-- Master statement for `parse_value` at a given fuel. -/
def MV (f : Nat) : Prop :=
  ∀ st : PState, Sentinel st.tokens → st.current ≤ st.tokens.length - 1 →
    4 * (st.tokens.length - 1 - st.current) + 4 ≤ f →
    PGood ObjOk st (st.tokens.length - 1) (parseValue f st)

/-- Master statement for `parse_object` at a given fuel. -/
def MO (f : Nat) : Prop :=
  ∀ st : PState, Sentinel st.tokens → st.current ≤ st.tokens.length - 1 →
    4 * (st.tokens.length - 1 - st.current) + 3 ≤ f →
    PGood ObjOk st (st.tokens.length - 1) (parseObject f st)

/-- Master statement for the member loop of `parse_object`. -/
def ML (f : Nat) : Prop :=
  ∀ (acc : List (String × Value)) (prev : Bool) (st : PState),
    Sentinel st.tokens → st.current ≤ st.tokens.length - 1 →
    4 * (st.tokens.length - 1 - st.current) + 5 ≤ f →
    KeysUnique acc → (∀ kv ∈ acc, ObjOk kv.2) →
    PGood ObjOk st (st.tokens.length - 1) (objLoop f acc prev st)

/-- Master statement for `parse_object_member`. -/
def MM (f : Nat) : Prop :=
  ∀ st : PState, Sentinel st.tokens → st.current ≤ st.tokens.length - 1 →
    4 * (st.tokens.length - 1 - st.current) + 1 ≤ f →
    PGood (fun kv => ObjOk kv.2) st (st.tokens.length - 1) (parseObjectMember f st)

/-- Master statement for `parse_array`. -/
def MA (f : Nat) : Prop :=
  ∀ st : PState, Sentinel st.tokens → st.current ≤ st.tokens.length - 1 →
    4 * (st.tokens.length - 1 - st.current) + 3 ≤ f →
    PGood ObjOk st (st.tokens.length - 1) (parseArray f st)

/-- Master statement for the element loop of `parse_array`. -/
def MAL (f : Nat) : Prop :=
  ∀ (acc : List Value) (prev : Bool) (st : PState),
    Sentinel st.tokens → st.current ≤ st.tokens.length - 1 →
    4 * (st.tokens.length - 1 - st.current) + 6 ≤ f →
    (∀ v ∈ acc, ObjOk v) →
    PGood ObjOk st (st.tokens.length - 1) (arrLoop f acc prev st)

/-- All six master statements at once. -/
def MasterAll (f : Nat) : Prop :=
  MV f ∧ MO f ∧ ML f ∧ MM f ∧ MA f ∧ MAL f

theorem masterV_step (g : Nat) (IH : MasterAll g) : MV (g + 1) := by
  intro st hsent hcur hfuel
  have hne : st.isAtEnd = Bool.false := PState.not_atEnd hsent.1 hcur
  obtain ⟨t, ht⟩ := getElem?_of_lt (show st.current < st.tokens.length by
    have := hsent.1; omega)
  rw [parseValue, hne, if_neg Bool.false_ne_true, ht]
  obtain ⟨k, tl⟩ := t
  cases k with
  | str s =>
    have hlt : st.current < st.tokens.length - 1 :=
      lt_lastIdx_of_ne_eof hsent ht (by simp) hcur
    exact PGood.retSome ((PStep.base hcur).bump hlt) (ObjOk.str s) (Nat.le_refl _)
  | num s =>
    dsimp only
    by_cases hf : rustParseF64Ok s
    · rw [if_pos hf]
      have hlt : st.current < st.tokens.length - 1 :=
        lt_lastIdx_of_ne_eof hsent ht (by simp) hcur
      exact PGood.retSome ((PStep.base hcur).bump hlt) (ObjOk.num s) (Nat.le_refl _)
    · rw [if_neg hf]
      exact Or.inl rfl
  | true =>
    have hlt : st.current < st.tokens.length - 1 :=
      lt_lastIdx_of_ne_eof hsent ht (by simp) hcur
    exact PGood.retSome ((PStep.base hcur).bump hlt) (ObjOk.bool Bool.true) (Nat.le_refl _)
  | false =>
    have hlt : st.current < st.tokens.length - 1 :=
      lt_lastIdx_of_ne_eof hsent ht (by simp) hcur
    exact PGood.retSome ((PStep.base hcur).bump hlt) (ObjOk.bool Bool.false) (Nat.le_refl _)
  | null =>
    have hlt : st.current < st.tokens.length - 1 :=
      lt_lastIdx_of_ne_eof hsent ht (by simp) hcur
    exact PGood.retSome ((PStep.base hcur).bump hlt) ObjOk.null (Nat.le_refl _)
  | leftCurlyBrace =>
    exact IH.2.1 st hsent hcur (by omega)
  | leftSquaredBrace =>
    exact IH.2.2.2.2.1 st hsent hcur (by omega)
  | rightCurlyBrace =>
    exact PGood.retNone ((PStep.base hcur).reportTok _ _)
  | rightSquaredBrace =>
    exact PGood.retNone ((PStep.base hcur).reportTok _ _)
  | comma =>
    exact PGood.retNone ((PStep.base hcur).reportTok _ _)
  | colon =>
    exact PGood.retNone ((PStep.base hcur).reportTok _ _)
  | eof =>
    exact PGood.retNone ((PStep.base hcur).reportTok _ _)

theorem masterO_step (g : Nat) (IH : MasterAll g) : MO (g + 1) := by
  intro st hsent hcur hfuel
  have hne : st.isAtEnd = Bool.false := PState.not_atEnd hsent.1 hcur
  rw [parseObject, hne, if_neg Bool.false_ne_true]
  rcases tryMatch_cases st .leftCurlyBrace with hm | ⟨t, ht, hk, hm⟩
  · rw [hm]
    dsimp only
    obtain ⟨t, ht⟩ := getElem?_of_lt (show st.current < st.tokens.length by
      have := hsent.1; omega)
    rw [ht]
    exact PGood.retNone ((PStep.base hcur).reportTok _ _)
  · rw [hm]
    dsimp only
    have hlt : st.current < st.tokens.length - 1 :=
      lt_lastIdx_of_ne_eof hsent ht (by rw [hk]; simp) hcur
    have hb : PStep (st.tokens.length - 1) st st.bump := (PStep.base hcur).bump hlt
    refine PGood.pre hb ?_
    have hrec := IH.2.2.1 [] Bool.false st.bump hsent
      (show st.current + 1 ≤ st.tokens.length - 1 from hlt)
      (show 4 * (st.tokens.length - 1 - (st.current + 1)) + 5 ≤ g by omega)
      List.Pairwise.nil (by simp)
    exact hrec

theorem masterL_step (g : Nat) (IH : MasterAll g) : ML (g + 1) := by
  intro acc prev st hsent hcur hfuel hku hvals
  have hne : st.isAtEnd = Bool.false := PState.not_atEnd hsent.1 hcur
  rw [objLoop, hne, if_neg Bool.false_ne_true]
  rcases tryMatch_cases st .rightCurlyBrace with hm | ⟨t, ht, hk, hm⟩
  swap
  · rw [hm]
    dsimp only
    have hlt : st.current < st.tokens.length - 1 :=
      lt_lastIdx_of_ne_eof hsent ht (by rw [hk]; simp) hcur
    exact PGood.retSome ((PStep.base hcur).bump hlt) (ObjOk.obj acc hku hvals)
      (Nat.le_refl _)
  · rw [hm]
    dsimp only
    obtain ⟨tn, htn⟩ := getElem?_of_lt (show st.current < st.tokens.length by
      have := hsent.1; omega)
    rw [htn]
    dsimp only
    have key : ∀ st2 : PState, PStep (st.tokens.length - 1) st st2 →
        4 * (st.tokens.length - 1 - st2.current) + 1 ≤ g →
        PGood ObjOk st (st.tokens.length - 1)
          (match parseObjectMember g st2 with
           | .error p => .error p
           | .ok (none, st3) =>
             .ok (none, st3.reportErrorWithToken tn "Failed to parse JSON object member!")
           | .ok (some member, st3) =>
             if acc.any fun p => p.1 = member.1 then
               .ok (none, st3.reportErrorWithToken tn
                 ("Duplicate JSON object key! Key " ++ member.1))
             else objLoop g (acc ++ [member]) Bool.true st3) := by
      intro st2 h0 hfuel2
      have hM := IH.2.2.2.1 st2 (h0.tokens_eq.symm ▸ hsent)
        (by rw [h0.tokens_eq]; exact h0.current_bound)
        (by rw [h0.tokens_eq]; exact hfuel2)
      rw [h0.tokens_eq] at hM
      rcases hM with hpanic | ⟨res, st3, hr, hstep, hres⟩
      · rw [hpanic]
        exact Or.inl rfl
      · rw [hr]
        cases res with
        | none => exact PGood.retNone ((h0.seq hstep).reportTok _ _)
        | some member =>
          dsimp only
          obtain ⟨hOk, hcons⟩ := hres member rfl
          by_cases hdup : (acc.any fun p => decide (p.1 = member.1)) = Bool.true
          · rw [if_pos hdup]
            exact PGood.retNone ((h0.seq hstep).reportTok _ _)
          · rw [if_neg hdup]
            have hall : PStep (st.tokens.length - 1) st st3 := h0.seq hstep
            refine PGood.pre hall ?_
            have hnodup : ∀ p ∈ acc, p.1 ≠ member.1 := by
              intro p hp heq
              exact hdup (List.any_eq_true.2 ⟨p, hp, by simp [heq]⟩)
            have hku2 : KeysUnique (acc ++ [member]) := by
              refine List.pairwise_append.2 ⟨hku, List.pairwise_singleton _ _, ?_⟩
              intro a ha b hb
              rw [List.mem_singleton] at hb
              subst hb
              exact hnodup a ha
            have hvals2 : ∀ kv ∈ acc ++ [member], ObjOk kv.2 := by
              intro kv hkv
              rcases List.mem_append.1 hkv with h | h
              · exact hvals kv h
              · rw [List.mem_singleton] at h
                subst h
                exact hOk
            have hrec := IH.2.2.1 (acc ++ [member]) Bool.true st3
              (hall.tokens_eq.symm ▸ hsent)
              (by rw [hall.tokens_eq]; exact hall.current_bound)
              (by rw [hall.tokens_eq]
                  have h1 := hstep.current_bound
                  have h2 := h0.current_bound
                  omega)
              hku2 hvals2
            rw [hall.tokens_eq] at hrec
            exact hrec
    cases prev with
    | false =>
      exact key st (PStep.base hcur) (by omega)
    | true =>
      rcases tryMatch_cases st .comma with hc | ⟨tc, htc, hkc, hc⟩
      · rw [hc]
        exact PGood.retNone ((PStep.base hcur).reportTok _ _)
      · rw [hc]
        have hltc : st.current < st.tokens.length - 1 :=
          lt_lastIdx_of_ne_eof hsent htc (by rw [hkc]; simp) hcur
        exact key st.bump ((PStep.base hcur).bump hltc)
          (show 4 * (st.tokens.length - 1 - (st.current + 1)) + 1 ≤ g by omega)

theorem masterM_step (g : Nat) (IH : MasterAll g) : MM (g + 1) := by
  intro st hsent hcur hfuel
  have hne : st.isAtEnd = Bool.false := PState.not_atEnd hsent.1 hcur
  rw [parseObjectMember, hne, if_neg Bool.false_ne_true]
  obtain ⟨tn, htn⟩ := getElem?_of_lt (show st.current < st.tokens.length by
    have := hsent.1; omega)
  rw [htn]
  obtain ⟨k, tl⟩ := tn
  cases k
  case str s =>
    dsimp only
    have hlt1 : st.current < st.tokens.length - 1 :=
      lt_lastIdx_of_ne_eof hsent htn (by simp) hcur
    have hne1 : st.bump.isAtEnd = Bool.false :=
      PState.not_atEnd hsent.1 (show st.current + 1 ≤ st.tokens.length - 1 from hlt1)
    rw [hne1, if_neg Bool.false_ne_true]
    have key : ∀ st2 : PState, PStep (st.tokens.length - 1) st st2 →
        4 * (st.tokens.length - 1 - st2.current) + 4 ≤ g →
        PGood (fun kv => ObjOk kv.2) st (st.tokens.length - 1)
          (match parseValue g st2 with
           | .error p => .error p
           | .ok (none, st4) =>
             .ok (none, st4.reportError "Failed to parse JSON object element value!")
           | .ok (some v, st4) => .ok (some (s, v), st4)) := by
      intro st2 h0 hf
      have hV := IH.1 st2 (h0.tokens_eq.symm ▸ hsent)
        (by rw [h0.tokens_eq]; exact h0.current_bound)
        (by rw [h0.tokens_eq]; exact hf)
      rw [h0.tokens_eq] at hV
      rcases hV with hp | ⟨res, st4, hr, hstep, hres⟩
      · rw [hp]
        exact Or.inl rfl
      · rw [hr]
        cases res with
        | none =>
          exact PGood.retNone ((h0.seq hstep).reportError _ (by simp [linelessMsgs]))
        | some v =>
          obtain ⟨hOk, hcons⟩ := hres v rfl
          exact PGood.retSome (h0.seq hstep) hOk
            (by have := h0.current_le; omega)
    rcases tryMatch_cases st.bump .colon with hcm | ⟨tc, htc, hkc, hcm⟩
    · rw [hcm]
      dsimp only
      obtain ⟨tc, htc⟩ := getElem?_of_lt (show st.bump.current < st.bump.tokens.length by
        show st.current + 1 < st.tokens.length
        omega)
      rw [htc]
      exact key (st.bump.reportErrorWithToken tc
        "Expected JSON object element key-value colon separator!")
        (((PStep.base hcur).bump hlt1).reportTok tc _)
        (show 4 * (st.tokens.length - 1 - (st.current + 1)) + 4 ≤ g by omega)
    · rw [hcm]
      dsimp only
      have hlt2 : st.bump.current < st.tokens.length - 1 :=
        lt_lastIdx_of_ne_eof hsent htc (by rw [hkc]; simp)
          (show st.current + 1 ≤ st.tokens.length - 1 from hlt1)
      exact key st.bump.bump (((PStep.base hcur).bump hlt1).bump hlt2)
        (show 4 * (st.tokens.length - 1 - (st.current + 1 + 1)) + 4 ≤ g by omega)
  all_goals exact PGood.retNone ((PStep.base hcur).reportTok _ _)

theorem masterA_step (g : Nat) (IH : MasterAll g) : MA (g + 1) := by
  intro st hsent hcur hfuel
  have hne : st.isAtEnd = Bool.false := PState.not_atEnd hsent.1 hcur
  rw [parseArray, hne, if_neg Bool.false_ne_true]
  rcases tryMatch_cases st .leftSquaredBrace with hm | ⟨t, ht, hk, hm⟩
  · rw [hm]
    dsimp only
    obtain ⟨t, ht⟩ := getElem?_of_lt (show st.current < st.tokens.length by
      have := hsent.1; omega)
    rw [ht]
    exact PGood.retNone ((PStep.base hcur).reportTok _ _)
  · rw [hm]
    dsimp only
    have hlt : st.current < st.tokens.length - 1 :=
      lt_lastIdx_of_ne_eof hsent ht (by rw [hk]; simp) hcur
    have hb : PStep (st.tokens.length - 1) st st.bump := (PStep.base hcur).bump hlt
    refine PGood.pre hb ?_
    exact IH.2.2.2.2.2 [] Bool.false st.bump hsent
      (show st.current + 1 ≤ st.tokens.length - 1 from hlt)
      (show 4 * (st.tokens.length - 1 - (st.current + 1)) + 6 ≤ g by omega)
      (by simp)

theorem masterAL_step (g : Nat) (IH : MasterAll g) : MAL (g + 1) := by
  intro acc prev st hsent hcur hfuel hvals
  have hne : st.isAtEnd = Bool.false := PState.not_atEnd hsent.1 hcur
  rw [arrLoop, hne, if_neg Bool.false_ne_true]
  rcases tryMatch_cases st .rightSquaredBrace with hm | ⟨t, ht, hk, hm⟩
  swap
  · rw [hm]
    dsimp only
    have hlt : st.current < st.tokens.length - 1 :=
      lt_lastIdx_of_ne_eof hsent ht (by rw [hk]; simp) hcur
    exact PGood.retSome ((PStep.base hcur).bump hlt) (ObjOk.arr acc hvals) (Nat.le_refl _)
  · rw [hm]
    dsimp only
    obtain ⟨tn, htn⟩ := getElem?_of_lt (show st.current < st.tokens.length by
      have := hsent.1; omega)
    rw [htn]
    dsimp only
    have key : ∀ st2 : PState, PStep (st.tokens.length - 1) st st2 →
        4 * (st.tokens.length - 1 - st2.current) + 4 ≤ g →
        PGood ObjOk st (st.tokens.length - 1)
          (match parseValue g st2 with
           | .error p => .error p
           | .ok (none, st3) =>
             .ok (none, st3.reportErrorWithToken tn "Failed to parse JSON object element!")
           | .ok (some element, st3) => arrLoop g (acc ++ [element]) Bool.true st3) := by
      intro st2 h0 hf
      have hV := IH.1 st2 (h0.tokens_eq.symm ▸ hsent)
        (by rw [h0.tokens_eq]; exact h0.current_bound)
        (by rw [h0.tokens_eq]; exact hf)
      rw [h0.tokens_eq] at hV
      rcases hV with hp | ⟨res, st3, hr, hstep, hres⟩
      · rw [hp]
        exact Or.inl rfl
      · rw [hr]
        cases res with
        | none => exact PGood.retNone ((h0.seq hstep).reportTok _ _)
        | some element =>
          dsimp only
          obtain ⟨hOk, hcons⟩ := hres element rfl
          have hall : PStep (st.tokens.length - 1) st st3 := h0.seq hstep
          refine PGood.pre hall ?_
          have hvals2 : ∀ v ∈ acc ++ [element], ObjOk v := by
            intro v hv
            rcases List.mem_append.1 hv with h | h
            · exact hvals v h
            · rw [List.mem_singleton] at h
              subst h
              exact hOk
          have hrec := IH.2.2.2.2.2 (acc ++ [element]) Bool.true st3
            (hall.tokens_eq.symm ▸ hsent)
            (by rw [hall.tokens_eq]; exact hall.current_bound)
            (by rw [hall.tokens_eq]
                have h1 := hstep.current_bound
                have h2 := h0.current_bound
                omega)
            hvals2
          rw [hall.tokens_eq] at hrec
          exact hrec
    cases prev with
    | false =>
      exact key st (PStep.base hcur) (by omega)
    | true =>
      rcases tryMatch_cases st .comma with hc | ⟨tc, htc, hkc, hc⟩
      · rw [hc]
        exact PGood.retNone ((PStep.base hcur).reportTok _ _)
      · rw [hc]
        have hltc : st.current < st.tokens.length - 1 :=
          lt_lastIdx_of_ne_eof hsent htc (by rw [hkc]; simp) hcur
        exact key st.bump ((PStep.base hcur).bump hltc)
          (show 4 * (st.tokens.length - 1 - (st.current + 1)) + 4 ≤ g by omega)

/-- All six parser master statements hold at every fuel. -/
theorem masterAll (f : Nat) : MasterAll f := by
  induction f with
  | zero =>
    refine ⟨?_, ?_, ?_, ?_, ?_, ?_⟩
    · intro st _ _ hfuel
      omega
    · intro st _ _ hfuel
      omega
    · intro acc prev st _ _ hfuel
      omega
    · intro st _ _ hfuel
      omega
    · intro st _ _ hfuel
      omega
    · intro acc prev st _ _ hfuel
      omega
  | succ g ih =>
    exact ⟨masterV_step g ih, masterO_step g ih, masterL_step g ih,
      masterM_step g ih, masterA_step g ih, masterAL_step g ih⟩

/-- Contract of `parse_tokens` on a sentinel-shaped token vector, at the
fuel the entry point supplies. -/
theorem runParser_spec (tokens : List Token) (hsent : Sentinel tokens) :
    runParser tokens = .error .floatUnwrap ∨
    ∃ res st1, runParser tokens = .ok (res, st1) ∧ st1.tokens = tokens ∧
      st1.current ≤ tokens.length - 1 ∧ (∀ e ∈ st1.errors, PerrOk e) ∧
      ∀ v, res = some v → ObjOk v := by
  have hV := (masterAll (parserFuel tokens)).1 { tokens := tokens, current := 0, errors := [] }
    hsent (Nat.zero_le _)
    (show 4 * (tokens.length - 1 - 0) + 4 ≤ 4 * tokens.length + 8 by omega)
  unfold runParser parseTokens
  rcases hV with hp | ⟨res, st1, hr, hstep, hres⟩
  · rw [hp]
    exact Or.inl rfl
  · rw [hr]
    dsimp only
    have htok : st1.tokens = tokens := hstep.tokens_eq
    have hcb : st1.current ≤ tokens.length - 1 := by
      have := hstep.current_bound
      simpa [htok] using this
    have h1 : st1.isAtEnd = Bool.false := by
      apply PState.not_atEnd
      · rw [htok]
        exact hsent.1
      · rw [htok]
        exact hcb
    obtain ⟨E, hE, hEok⟩ := hstep.errors_ext
    simp only [List.nil_append] at hE
    rw [h1, if_neg Bool.false_ne_true]
    obtain ⟨t, ht⟩ := getElem?_of_lt (show st1.current < st1.tokens.length by
      rw [htok]
      have := hsent.1
      omega)
    rw [ht]
    dsimp only
    by_cases he : t.kind = TokenKind.eof
    · rw [if_pos he]
      refine Or.inr ⟨res, st1, rfl, htok, hcb, ?_, ?_⟩
      · intro e hme
        exact hEok e (by rw [← hE]; exact hme)
      · intro v hv
        exact (hres v hv).1
    · rw [if_neg he]
      refine Or.inr ⟨none, st1.reportError "Expected EOF!", rfl, htok, hcb, ?_, ?_⟩
      · intro e hme
        have : st1.reportError "Expected EOF!" = { st1 with
            errors := st1.errors ++ ["Error: " ++ "Expected EOF!"] } := rfl
        rw [this] at hme
        dsimp only at hme
        rw [hE] at hme
        rcases List.mem_append.1 hme with h | h
        · exact hEok e h
        · rw [List.mem_singleton] at h
          subst h
          exact Or.inr (by simp [linelessMsgs])
      · intro v hv
        cases hv

/-- The classification of every `deserialize_value` outcome: a float-unwrap
panic, a clean failure, or a value all of whose objects have distinct keys.
In particular the parser never indexes out of bounds and the fuel the entry
point supplies never runs out. -/
theorem deserializeValue_cases (buffer : List Char) :
    deserializeValue buffer = .error .floatUnwrap ∨
    deserializeValue buffer = .ok none ∨
    ∃ v, deserializeValue buffer = .ok (some v) ∧ ObjOk v := by
  unfold deserializeValue
  by_cases hse : (scanOf buffer).errors.isEmpty
  · rw [if_pos hse]
    rcases runParser_spec (scanOf buffer).tokens (sentinel_scanOf buffer) with hp |
      ⟨res, st1, hr, -, -, -, hok⟩
    · rw [hp]
      exact Or.inl rfl
    · rw [hr]
      dsimp only
      by_cases hpe : st1.errors.isEmpty
      · rw [if_pos hpe]
        cases res with
        | none => exact Or.inr (Or.inl rfl)
        | some v => exact Or.inr (Or.inr ⟨v, rfl, hok v rfl⟩)
      · rw [if_neg hpe]
        exact Or.inr (Or.inl rfl)
  · rw [if_neg hse]
    exact Or.inr (Or.inl rfl)

/-- If the parser run records any error, `deserialize_value` returns Rust's
`None`. -/
theorem deserialize_fails_of_parser_errors (buffer : List Char) :
    ∀ mv st, runParser (scanOf buffer).tokens = .ok (mv, st) → st.errors ≠ [] →
      deserializeValue buffer = .ok none := by
  intro mv st hr herr
  unfold deserializeValue
  by_cases hse : (scanOf buffer).errors.isEmpty
  · rw [if_pos hse, hr]
    dsimp only
    rw [if_neg (by simpa [List.isEmpty_iff] using herr)]
  · rw [if_neg hse]

/-- If the scanner recorded any lexical error, `deserialize_value` returns
`None` without consulting the parser's result. -/
theorem deserialize_fails_of_scanner_errors (buffer : List Char)
    (h : (scanOf buffer).errors ≠ []) : deserializeValue buffer = .ok none := by
  unfold deserializeValue
  rw [if_neg (by simpa [List.isEmpty_iff] using h)]

/-! ## Claims -/

/-- Claim C1 (code_bug): the claim says deserialize_value reports every
malformed input as `None` and never crashes, naming the input "-" in
particular.  The code violates it: on "-" the scanner emits the token
`Num("-")` with no lexical error, and `parse_value` then runs
`"-".parse::<f64>().unwrap()`, which panics because "-" is not a valid
float literal.  The embedding reaches the modelled unwrap panic. -/
theorem c1_deserialize_panics_on_minus :
    deserializeValue "-".data = .error .floatUnwrap := by
  rfl

/-- Claim C2 (code_bug): of the listed number-grammar boundary cases, the
code agrees on all but "01": the leading-zero check in `add_number_token`
fires only when the digit after the leading zero is itself a zero, so "01"
scans without error and deserializes to the number 1 instead of failing.
The remaining seven cases behave as the claim states. -/
theorem c2_number_grammar_boundary :
    deserializeValue "01".data = .ok (some (.num "01")) ∧
    deserializeValue "0".data = .ok (some (.num "0")) ∧
    deserializeValue "0.5".data = .ok (some (.num "0.5")) ∧
    deserializeValue "-0".data = .ok (some (.num "-0")) ∧
    deserializeValue "1e10".data = .ok (some (.num "1e10")) ∧
    deserializeValue "-1.5E-3".data = .ok (some (.num "-1.5E-3")) ∧
    deserializeValue "1.".data = .ok none ∧
    deserializeValue "1e".data = .ok none :=
  ⟨rfl, rfl, rfl, rfl, rfl, rfl, rfl, rfl⟩

/-- Claim C4 (confirmed): parsing an object with two members of the same
key aborts with no value, and every Obj node a successful deserialize ever
returns has pairwise-distinct keys (the parser checks `contains_key`
before every insert, so no overwrite can happen). -/
theorem c4_duplicate_keys_rejected :
    deserializeValue "\x7b\"a\":1,\"a\":2\x7d".data = .ok none ∧
    ∀ (buffer : List Char) (v : Value),
      deserializeValue buffer = .ok (some v) → ObjOk v := by
  refine ⟨rfl, ?_⟩
  intro buffer v h
  rcases deserializeValue_cases buffer with hp | hn | ⟨w, hw, hOk⟩
  · rw [h] at hp
    cases hp
  · rw [h] at hn
    cases hn
  · rw [h] at hw
    cases hw
    exact hOk

theorem c4_duplicate_keys_rejected_witness :
    ObjOk (Value.obj [("a", Value.num "1")]) :=
  c4_duplicate_keys_rejected.2 "\x7b\"a\":1\x7d".data (Value.obj [("a", Value.num "1")]) rfl

/-- Claim C5 (confirmed): the scanner always completes its full
left-to-right pass over the buffer (the final cursor is at or past the end
of the unchanged buffer), and whenever the accumulated lexical error list
is non-empty, `deserialize_value` returns `None`; by the structure of
`deserializeValue` the parser match sits inside the no-errors branch, so
the token vector is never handed to the parser in that case. -/
theorem c5_scan_full_pass_and_error_gate :
    ∀ buffer : List Char,
      (scanOf buffer).buffer = buffer ∧
      (scanOf buffer).buffer.length ≤ (scanOf buffer).current ∧
      ((scanOf buffer).errors ≠ [] → deserializeValue buffer = .ok none) := by
  intro buffer
  obtain ⟨hbuf, hfull, -, -⟩ := scanOf_spec buffer
  exact ⟨hbuf, hfull, deserialize_fails_of_scanner_errors buffer⟩

theorem c5_scan_full_pass_and_error_gate_witness :
    (scanOf "@".data).errors ≠ [] ∧ deserializeValue "@".data = .ok none :=
  ⟨by decide,
   (c5_scan_full_pass_and_error_gate "@".data).2.2 (by decide)⟩

/-- Claim C6 (corrected), counterexample: on the input consisting of
`\x7b"a":1,` then a newline then `"a":2\x7d`, the duplicate member's key
token sits on line 2, but the recorded semantic error carries line 1 (the
line of the comma token at the start of that member's loop iteration);
no recorded error equals the line-2 message the claim requires. -/
theorem c6_duplicate_key_line_counterexample :
    (scanOf "\x7b\"a\":1,\n\"a\":2\x7d".data).tokens[5]? =
      some { kind := TokenKind.str "a", line := 2 } ∧
    runParser (scanOf "\x7b\"a\":1,\n\"a\":2\x7d".data).tokens =
      .ok (none, ⟨(scanOf "\x7b\"a\":1,\n\"a\":2\x7d".data).tokens, 8,
        [msgWithLine 1 "Duplicate JSON object key! Key a",
          "Error: Expected EOF!"]⟩) ∧
    (∀ e ∈ [msgWithLine 1 "Duplicate JSON object key! Key a",
        "Error: Expected EOF!"],
      e ≠ msgWithLine 2 "Duplicate JSON object key! Key a") := by
  refine ⟨rfl, rfl, ?_⟩
  decide

/-- Claim C6 (corrected), amended: whenever the parser encounters a
duplicate key while inserting a parsed member into the in-progress object,
the semantic error it records carries the source line of the token at the
start of that member's loop iteration.  A duplicate can only occur for a
non-first member, whose iteration starts at the separating comma, so the
error is reported with the comma token preceding the member, not with the
member's key token.  Universally: for every loop state whose
iteration-start token is the comma, if the member parsed after the comma
duplicates a key of the accumulated object, the loop returns the
duplicate-key error reported with that comma token (hence its line). -/
theorem c6_duplicate_key_line_amended :
    ∀ (fuel : Nat) (acc : List (String × Value)) (st : PState) (tn : Token)
      (member : String × Value) (st3 : PState),
      st.tokens[st.current]? = some tn →
      tn.kind = TokenKind.comma →
      parseObjectMember fuel st.bump = .ok (some member, st3) →
      (acc.any fun p => p.1 = member.1) = Bool.true →
      objLoop (fuel + 1) acc Bool.true st =
        .ok (none, st3.reportErrorWithToken tn
          ("Duplicate JSON object key! Key " ++ member.1)) := by
  intro fuel acc st tn member st3 h1 h2 h3 h4
  have hlen : st.current < st.tokens.length := by
    by_contra hc
    rw [List.getElem?_eq_none (by omega)] at h1
    cases h1
  have hne : st.isAtEnd = Bool.false := by
    simp only [PState.isAtEnd, decide_eq_false_iff_not, Nat.not_le]
    omega
  have hrc : st.tryMatch .rightCurlyBrace = (Bool.false, st) := by
    unfold PState.tryMatch
    rw [hne, if_neg Bool.false_ne_true, h1]
    dsimp only
    rw [if_neg (by rw [h2]; simp)]
  have hcm : st.tryMatch .comma = (Bool.true, st.bump) := by
    unfold PState.tryMatch
    rw [hne, if_neg Bool.false_ne_true, h1]
    dsimp only
    rw [if_pos h2]
  rw [objLoop, hne, if_neg Bool.false_ne_true, hrc]
  dsimp only
  rw [h1]
  dsimp only
  rw [if_pos rfl, hcm]
  dsimp only
  rw [h3]
  dsimp only
  rw [if_pos h4]

theorem c6_duplicate_key_line_amended_witness :
    objLoop 21 [("a", Value.num "1")] Bool.true
        ⟨(scanOf "\x7b\"a\":1,\n\"a\":2\x7d".data).tokens, 4, []⟩ =
      .ok (none, (⟨(scanOf "\x7b\"a\":1,\n\"a\":2\x7d".data).tokens, 8, []⟩
          : PState).reportErrorWithToken ⟨TokenKind.comma, 1⟩
          ("Duplicate JSON object key! Key " ++ "a")) :=
  c6_duplicate_key_line_amended 20 [("a", Value.num "1")]
    ⟨(scanOf "\x7b\"a\":1,\n\"a\":2\x7d".data).tokens, 4, []⟩
    ⟨TokenKind.comma, 1⟩ ("a", Value.num "2")
    ⟨(scanOf "\x7b\"a\":1,\n\"a\":2\x7d".data).tokens, 8, []⟩
    rfl rfl rfl (by decide)

/-- Claim C7 (corrected), counterexample: on the input `\x7b"a":\x7d` the
parser records the member-value failure through `report_error`, which
attaches no line number, so not every recorded error carries one. -/
theorem c7_error_line_counterexample :
    runParser (scanOf "\x7b\"a\":\x7d".data).tokens =
      .ok (none, ⟨(scanOf "\x7b\"a\":\x7d".data).tokens, 3,
        [msgWithLine 1 "Unexpected token!",
          "Error: Failed to parse JSON object element value!",
          msgWithLine 1 "Failed to parse JSON object member!",
          "Error: Expected EOF!"]⟩) ∧
    lineTagged "Error: Failed to parse JSON object element value!" = Bool.false := by
  exact ⟨rfl, rfl⟩

/-- Claim C7 (corrected), amended: every scanner-recorded error carries a
line tag, and every parser-recorded error either carries a line tag (the
offending token's line, via `report_error_with_token`) or is one of the
three `report_error` messages recorded without a line: the unexpected-EOF
guard, the trailing-content "Expected EOF!" error, and the member-value
failure "Failed to parse JSON object element value!". -/
theorem c7_error_lines_amended :
    ∀ buffer : List Char,
      (∀ e ∈ (scanOf buffer).errors, lineTagged e = Bool.true) ∧
      (∀ mv st, runParser (scanOf buffer).tokens = .ok (mv, st) →
        ∀ e ∈ st.errors, lineTagged e = Bool.true ∨ e ∈ linelessMsgs) := by
  intro buffer
  obtain ⟨-, -, -, hscan⟩ := scanOf_spec buffer
  refine ⟨hscan, ?_⟩
  intro mv st hr e he
  rcases runParser_spec (scanOf buffer).tokens (sentinel_scanOf buffer) with hp |
    ⟨res, st1, hr1, -, -, herr, -⟩
  · rw [hr] at hp
    cases hp
  · rw [hr] at hr1
    cases hr1
    exact herr e he

theorem c7_error_lines_amended_witness :
    lineTagged "[Line 1] Error: Unexpected character!" = Bool.true ∧
    (lineTagged "Error: Failed to parse JSON object element value!" = Bool.true ∨
      "Error: Failed to parse JSON object element value!" ∈ linelessMsgs) :=
  ⟨(c7_error_lines_amended "@".data).1 "[Line 1] Error: Unexpected character!" (by decide),
   (c7_error_lines_amended "\x7b\"a\":\x7d".data).2 none
     ⟨(scanOf "\x7b\"a\":\x7d".data).tokens, 3,
       [msgWithLine 1 "Unexpected token!",
         "Error: Failed to parse JSON object element value!",
         msgWithLine 1 "Failed to parse JSON object member!",
         "Error: Expected EOF!"]⟩ rfl
     "Error: Failed to parse JSON object element value!" (by decide)⟩

/-- Claim C8 (confirmed): when a member's key string token is not followed
by a colon token, `parse_object_member` records the missing-colon syntax
error with that token's line and then continues into `parse_value` for the
member's value; the member yields a value exactly when that value parse
succeeds.  And whenever the parser run has recorded any error,
`deserialize_value` returns `None`. -/
theorem c8_missing_colon_is_nonfatal_but_input_fails :
    (∀ (f : Nat) (st : PState) (k : String) (l : Nat) (t2 : Token),
      st.tokens[st.current]? = some { kind := TokenKind.str k, line := l } →
      st.tokens[st.current + 1]? = some t2 →
      t2.kind ≠ TokenKind.colon →
      parseObjectMember (f + 1) st =
        (match parseValue f (st.bump.reportErrorWithToken t2
            "Expected JSON object element key-value colon separator!") with
         | .error p => .error p
         | .ok (none, st4) =>
           .ok (none, st4.reportError "Failed to parse JSON object element value!")
         | .ok (some v, st4) => .ok (some (k, v), st4))) ∧
    (∀ (buffer : List Char) (mv : Option Value) (st : PState),
      runParser (scanOf buffer).tokens = .ok (mv, st) → st.errors ≠ [] →
      deserializeValue buffer = .ok none) := by
  constructor
  · intro f st k l t2 h1 h2 h3
    have hlen : st.current < st.tokens.length := by
      by_contra hc
      rw [List.getElem?_eq_none (by omega)] at h1
      cases h1
    have hlen2 : st.current + 1 < st.tokens.length := by
      by_contra hc
      rw [List.getElem?_eq_none (by omega)] at h2
      cases h2
    have hne : st.isAtEnd = Bool.false := by
      simp only [PState.isAtEnd, decide_eq_false_iff_not, Nat.not_le]
      omega
    have hne1 : st.bump.isAtEnd = Bool.false := by
      simp only [PState.isAtEnd, PState.bump, decide_eq_false_iff_not, Nat.not_le]
      omega
    have hcm : st.bump.tryMatch .colon = (Bool.false, st.bump) := by
      unfold PState.tryMatch
      rw [hne1, if_neg Bool.false_ne_true]
      rw [show st.bump.tokens[st.bump.current]? = some t2 from h2]
      dsimp only
      rw [if_neg h3]
    rw [parseObjectMember, hne, if_neg Bool.false_ne_true, h1]
    dsimp only
    rw [hne1, if_neg Bool.false_ne_true, hcm]
    dsimp only
    rw [show st.bump.tokens[st.bump.current]? = some t2 from h2]
  · exact deserialize_fails_of_parser_errors

theorem c8_missing_colon_is_nonfatal_but_input_fails_witness :
    parseObjectMember 21 ⟨(scanOf "\x7b\"a\" 1\x7d".data).tokens, 1, []⟩ =
      (match parseValue 20 ((⟨(scanOf "\x7b\"a\" 1\x7d".data).tokens, 1, []⟩
          : PState).bump.reportErrorWithToken ⟨TokenKind.num "1", 1⟩
          "Expected JSON object element key-value colon separator!") with
       | .error p => .error p
       | .ok (none, st4) =>
         .ok (none, st4.reportError "Failed to parse JSON object element value!")
       | .ok (some v, st4) => .ok (some ("a", v), st4)) ∧
    deserializeValue "\x7b\"a\" 1\x7d".data = .ok none :=
  ⟨c8_missing_colon_is_nonfatal_but_input_fails.1 20
      ⟨(scanOf "\x7b\"a\" 1\x7d".data).tokens, 1, []⟩
      "a" 1 ⟨TokenKind.num "1", 1⟩ rfl rfl (by decide),
   c8_missing_colon_is_nonfatal_but_input_fails.2 "\x7b\"a\" 1\x7d".data
      (some (Value.obj [("a", Value.num "1")]))
      ⟨(scanOf "\x7b\"a\" 1\x7d".data).tokens, 4,
        [msgWithLine 1 "Expected JSON object element key-value colon separator!"]⟩
      rfl (by decide)⟩

/-- Claim C9 (confirmed): for every input the scanner's token vector is
non-empty and ends with the EOF token, and the parser run on it never
aborts for an out-of-bounds token access or for fuel exhaustion — its only
outcomes are the modelled float-unwrap panic or a normal return whose final
cursor never passed the EOF index. -/
theorem c9_tokens_sentinel_and_parser_in_bounds :
    ∀ buffer : List Char,
      1 ≤ (scanOf buffer).tokens.length ∧
      ((scanOf buffer).tokens.getLast?).map Token.kind = some TokenKind.eof ∧
      (runParser (scanOf buffer).tokens = .error .floatUnwrap ∨
        ∃ mv st, runParser (scanOf buffer).tokens = .ok (mv, st) ∧
          st.current ≤ (scanOf buffer).tokens.length - 1) := by
  intro buffer
  obtain ⟨-, -, ⟨Δ, l, hT, -⟩, -⟩ := scanOf_spec buffer
  refine ⟨by rw [hT]; simp, by rw [hT, List.getLast?_concat]; rfl, ?_⟩
  rcases runParser_spec (scanOf buffer).tokens (sentinel_scanOf buffer) with hp |
    ⟨res, st1, hr, -, hcb, -, -⟩
  · exact Or.inl hp
  · exact Or.inr ⟨res, st1, hr, hcb⟩

/-- Claim C10 (confirmed): the two phases terminate on every finite input.
Each scanner step strictly advances the cursor (so the scan loop's fuel,
one unit per remaining byte, completes the pass — see C5 for the completed
pass), and the fuel the entry point hands the parser never runs out: the
whole run ends in the modelled float-unwrap panic or a normal result,
never in the fuel-exhaustion marker of the embedding. -/
theorem c10_deserialize_terminates :
    (∀ s : Scanner, s.current < (s.scanToken).current) ∧
    (∀ buffer : List Char,
      deserializeValue buffer = .error .floatUnwrap ∨
      ∃ mv, deserializeValue buffer = .ok mv) := by
  constructor
  · intro s
    exact (scanToken_step s).2
  · intro buffer
    rcases deserializeValue_cases buffer with hp | hn | ⟨v, hv, -⟩
    · exact Or.inl hp
    · exact Or.inr ⟨none, hn⟩
    · exact Or.inr ⟨some v, hv⟩

end PenguinJson
